import Mathlib

/-!
Verification of the in-memory todo service (Express + in-memory repository).

The development shallowly embeds the two components holding the program's
logic:

* `todoRepository.js` — the in-memory store: a list of tasks plus an
  auto-incrementing id counter, with operations `getAll`, `create`,
  `reset`, `remove`.
* `todoRouter.js` / `auth.js` — the route handlers for `POST /create` and
  `DELETE /:id`, each guarded by the JWT authentication middleware, and
  the input validation they perform.

Modelling conventions:

* The module-level mutable variables `tasks` and `nextId` become an
  explicit `Store` record threaded through the operations.
* JS numbers that can be `NaN` in this program (the result of
  `parseInt`) are modelled as `Option Int`, `none` standing for `NaN`;
  strict equality `===` against `NaN` is `false`, which `jsEq` encodes.
* The token-verification library (`jwt.verify`) is external to the
  repository, so the authentication middleware is parameterised by an
  arbitrary verification function `verify : String → Bool`.
* Request bodies are the JSON shapes the interface documents:
  `{ task: { description: string } }` with each field possibly absent
  (`Option`); JS falsiness of the empty string is modelled explicitly.
-/

namespace Todo

/-- A stored task: `{ id, description }`. -/
structure Task where
  id : Nat
  description : String
  deriving Repr, DecidableEq

/-- The repository's module state: the `tasks` array and the `nextId`
counter. -/
structure Store where
  tasks : List Task
  nextId : Nat
  deriving Repr, DecidableEq

/-- The state at module load: `tasks = []`, `nextId = 1`. -/
def initialStore : Store := ⟨[], 1⟩

/-- `getAll`: returns a copy of all current tasks (`[...tasks]`). -/
def getAll (s : Store) : List Task := s.tasks

/-- `create`: builds `{ id: nextId++, description }`, pushes it, returns it. -/
def create (description : String) (s : Store) : Task × Store :=
  let task : Task := ⟨s.nextId, description⟩
  (task, ⟨s.tasks ++ [task], s.nextId + 1⟩)

/-- `reset`: `tasks = []; nextId = 1`. -/
def reset (_ : Store) : Store := ⟨[], 1⟩

/-- JS strict equality `task.id === id` where `id` may be `NaN`
(modelled as `none`): `NaN === x` is always `false`. -/
def jsEq (i : Option Int) (tid : Nat) : Bool :=
  match i with
  | none => false
  | some v => v == (tid : Int)

/-- JS `Array.prototype.findIndex`, specialised to task predicates:
index of the first match, `-1` when there is none. -/
def findIndexJS (p : Task → Bool) : List Task → Int
  | [] => -1
  | t :: ts =>
    if p t then 0
    else if findIndexJS p ts = -1 then -1 else findIndexJS p ts + 1

/-- JS `tasks.splice(index, 1)`: removes the one element at `index`. -/
def spliceOne : List Task → Nat → List Task
  | [], _ => []
  | _ :: ts, 0 => ts
  | t :: ts, n + 1 => t :: spliceOne ts n

/-- `remove`: `findIndex` on `task.id === id`; `-1` yields `false`,
otherwise `splice(index, 1)` and `true`. -/
def remove (i : Option Int) (s : Store) : Bool × Store :=
  let index := findIndexJS (fun t => jsEq i t.id) s.tasks
  if index = -1 then (false, s)
  else (true, ⟨spliceOne s.tasks index.toNat, s.nextId⟩)

/-- The repository's operations, for statements quantifying over call
sequences. -/
inductive Op where
  | create (d : String)
  | remove (i : Option Int)
  | reset
  | getAll
  deriving Repr, DecidableEq

/-- State transformer of one repository operation (`getAll` reads only). -/
def applyOp : Op → Store → Store
  | .create d, s => (create d s).2
  | .remove i, s => (remove i s).2
  | .reset, s => reset s
  | .getAll, s => s

/-- Run a sequence of repository operations. -/
def run (s : Store) : List Op → Store
  | [] => s
  | op :: rest => run (applyOp op s) rest

/-- The ids returned by the `create` calls of a run, in call order. -/
def createdIds (s : Store) : List Op → List Nat
  | [] => []
  | .create d :: rest => (create d s).1.id :: createdIds (create d s).2 rest
  | op :: rest => createdIds (applyOp op s) rest

/-- The ids of the tasks deleted by the successful `remove` calls of a
run, in call order.  A successful `remove i` deletes the first task
whose id strictly equals `i`. -/
def removedIds (s : Store) : List Op → List Nat
  | [] => []
  | .remove i :: rest =>
    (match s.tasks.find? (fun t => jsEq i t.id) with
     | some t => [t.id]
     | none => []) ++ removedIds (remove i s).2 rest
  | op :: rest => removedIds (applyOp op s) rest

/-- The store invariant: every stored id is below the counter, and the
stored ids are pairwise distinct. -/
def Inv (s : Store) : Prop :=
  (∀ t ∈ s.tasks, t.id < s.nextId) ∧ (s.tasks.map Task.id).Nodup

instance (s : Store) : Decidable (Inv s) :=
  inferInstanceAs
    (Decidable ((∀ t ∈ s.tasks, t.id < s.nextId) ∧ (s.tasks.map Task.id).Nodup))

/-! ### Router and authentication middleware -/

/-- JS whitespace skipped by `parseInt` (the common characters). -/
def isJsSpace (c : Char) : Bool :=
  c = ' ' || c = '\t' || c = '\n' || c = '\r' || c = '\x0b' || c = '\x0c'

/-- Longest leading run of decimal digits. -/
def takeDigits : List Char → List Char
  | [] => []
  | c :: cs => if c.isDigit then c :: takeDigits cs else []

/-- Numeric value of a digit string, most significant first. -/
def digitsToNat (ds : List Char) : Nat :=
  ds.foldl (fun a c => 10 * a + (c.toNat - '0'.toNat)) 0

/-- JS `parseInt(str, 10)`: skip leading whitespace, consume an optional
sign, read the longest run of decimal digits; no digits yields `NaN`
(modelled as `none`). -/
def parseIntJS (str : String) : Option Int :=
  let cs := str.data.dropWhile isJsSpace
  match cs with
  | '-' :: rest =>
    if (takeDigits rest).isEmpty then none
    else some (-(digitsToNat (takeDigits rest) : Int))
  | '+' :: rest =>
    if (takeDigits rest).isEmpty then none
    else some (digitsToNat (takeDigits rest) : Int)
  | rest =>
    if (takeDigits rest).isEmpty then none
    else some (digitsToNat (takeDigits rest) : Int)

/-- `auth.js`: read the `authorization` header; a missing or empty
(falsy) value yields 401 "No token provided"; a token failing
verification yields 401 "Failed to authenticate token"; otherwise pass.
`none` is no failure (control reaches the route handler); `some msg` is
the 401 message sent. Verification (`jwt.verify` with the shared
secret) is the external library, abstracted as `verify`. -/
def auth (verify : String → Bool) (hdr : Option String) : Option String :=
  match hdr with
  | none => some "No token provided"
  | some token =>
    if token = "" then some "No token provided"
    else if verify token then none
    else some "Failed to authenticate token"

/-- The responses the routes produce. -/
inductive Resp where
  | ok (tasks : List Task)
  | createdR (t : Task)
  | noContent
  | badRequest (msg : String)
  | unauthorized (msg : String)
  | notFound (msg : String)
  deriving Repr, DecidableEq

/-- HTTP status code of a response. -/
def Resp.status : Resp → Nat
  | .ok _ => 200
  | .createdR _ => 201
  | .noContent => 204
  | .badRequest _ => 400
  | .unauthorized _ => 401
  | .notFound _ => 404

/-- Execution stages of a request, recorded in order: the
authentication check, the body/field validation, and a repository
invocation. -/
inductive Ev where
  | authEv
  | validEv
  | repoEv
  deriving Repr, DecidableEq

/-- The `task` object of a `POST /create` body; `description` may be
absent. -/
structure TaskInput where
  description : Option String
  deriving Repr, DecidableEq

/-- A `POST /create` JSON body; `task` may be absent or `null`. -/
structure CreateBody where
  task : Option TaskInput
  deriving Repr, DecidableEq

/-- The `POST /create` handler body (after `auth`): `!task ||
!task.description` yields 400 "Task is required" (an empty string
description is falsy), a description shorter than 3 characters yields
400, otherwise `create` runs and 201 returns the created task.  The
trace records the stages that actually ran. -/
def createHandlerT (body : CreateBody) (s : Store) : Resp × Store × List Ev :=
  match body.task with
  | none => (.badRequest "Task is required", s, [.validEv])
  | some t =>
    match t.description with
    | none => (.badRequest "Task is required", s, [.validEv])
    | some d =>
      if d = "" then (.badRequest "Task is required", s, [.validEv])
      else if d.length < 3 then
        (.badRequest "Description must be at least 3 characters long", s, [.validEv])
      else
        (.createdR (create d s).1, (create d s).2, [.validEv, .repoEv])

/-- The `DELETE /:id` handler body (after `auth`): `parseInt` the path
parameter, call `remove`; `true` yields 204, `false` yields 404. -/
def deleteHandlerT (idStr : String) (s : Store) : Resp × Store × List Ev :=
  if (remove (parseIntJS idStr) s).1 then
    (.noContent, (remove (parseIntJS idStr) s).2, [.repoEv])
  else
    (.notFound "Task not found", (remove (parseIntJS idStr) s).2, [.repoEv])

/-- An authenticated route (`router.post("/create", auth, handler)` /
`router.delete("/:id", auth, handler)`): the middleware runs first; on
failure it sends the 401 and the handler never runs. -/
def routeWithAuth (verify : String → Bool) (hdr : Option String)
    (handler : Store → Resp × Store × List Ev) (s : Store) :
    Resp × Store × List Ev :=
  match auth verify hdr with
  | some msg => (.unauthorized msg, s, [.authEv])
  | none =>
    ((handler s).1, (handler s).2.1, .authEv :: (handler s).2.2)

/-- The full `POST /create` route. -/
def postCreateRoute (verify : String → Bool) (hdr : Option String)
    (body : CreateBody) (s : Store) : Resp × Store × List Ev :=
  routeWithAuth verify hdr (createHandlerT body) s

/-- The full `DELETE /:id` route. -/
def deleteRoute (verify : String → Bool) (hdr : Option String)
    (idStr : String) (s : Store) : Resp × Store × List Ev :=
  routeWithAuth verify hdr (deleteHandlerT idStr) s

/-! ### Reference-level model of the task array, for the defensive copy

JS arrays are heap references; `getAll`'s spread `[...tasks]` allocates
a fresh array.  To state that the returned array is a fresh object, not
the store's own array, the array lives in an explicit heap of
references. -/

/-- A heap of arrays of tasks: contents of each reference, and a bound
`hi` below which all allocated references live (`hi` itself is free). -/
structure Heap where
  arr : Nat → List Task
  hi : Nat

/-- The repository state at reference level: the `tasks` variable holds
a reference into the heap. -/
structure RefStore where
  tasksRef : Nat
  nextId : Nat
  deriving Repr, DecidableEq

/-- `getAll` at reference level: `[...tasks]` allocates a fresh
reference holding the same elements; the store is untouched. -/
def getAllRef (h : Heap) (st : RefStore) : Nat × Heap × RefStore :=
  (h.hi, ⟨fun r => if r = h.hi then h.arr st.tasksRef else h.arr r, h.hi + 1⟩, st)

/-- Mutating the array behind a reference (what a caller could do to
the returned copy). -/
def writeArr (h : Heap) (r : Nat) (l : List Task) : Heap :=
  ⟨fun r2 => if r2 = r then l else h.arr r2, h.hi⟩

/-! ### Lemmas about `findIndexJS`, `spliceOne` and `remove` -/

theorem findIndexJS_cons_pos {p : Task → Bool} {t : Task} {ts : List Task}
    (hp : p t = true) : findIndexJS p (t :: ts) = 0 := by
  simp [findIndexJS, hp]

theorem findIndexJS_cons_neg {p : Task → Bool} {t : Task} {ts : List Task}
    (hp : p t = false) :
    findIndexJS p (t :: ts) =
      if findIndexJS p ts = -1 then -1 else findIndexJS p ts + 1 := by
  simp [findIndexJS, hp]

theorem findIndexJS_nonneg {p : Task → Bool} {l : List Task}
    (h : findIndexJS p l ≠ -1) : 0 ≤ findIndexJS p l := by
  induction l with
  | nil => exact absurd rfl h
  | cons t ts ih =>
    rcases Bool.eq_false_or_eq_true (p t) with hp | hp
    · rw [findIndexJS_cons_pos hp]
    · by_cases hr : findIndexJS p ts = -1
      · rw [findIndexJS_cons_neg hp, if_pos hr] at h
        exact absurd rfl h
      · have := ih hr
        rw [findIndexJS_cons_neg hp, if_neg hr]
        omega

theorem findIndexJS_eq_neg_one {p : Task → Bool} {l : List Task} :
    findIndexJS p l = -1 ↔ ∀ t ∈ l, p t = false := by
  induction l with
  | nil => simp [findIndexJS]
  | cons t ts ih =>
    rcases Bool.eq_false_or_eq_true (p t) with hp | hp
    · rw [findIndexJS_cons_pos hp]
      constructor
      · intro hcon; omega
      · intro hall
        have := hall t (List.mem_cons_self t ts)
        rw [hp] at this
        cases this
    · rw [findIndexJS_cons_neg hp]
      by_cases hr : findIndexJS p ts = -1
      · simp only [if_pos hr, List.forall_mem_cons, hp, true_and, true_iff]
        exact ih.mp hr
      · have hpos := findIndexJS_nonneg hr
        rw [if_neg hr]
        constructor
        · intro hcon; omega
        · intro hall
          exact absurd (ih.mpr fun u hu => hall u (List.mem_cons_of_mem t hu)) hr

theorem findIndexJS_spec {p : Task → Bool} {l : List Task}
    (h : findIndexJS p l ≠ -1) :
    ∃ pre t post, l = pre ++ t :: post ∧
      findIndexJS p l = (pre.length : Int) ∧ p t = true ∧
      ∀ u ∈ pre, p u = false := by
  induction l with
  | nil => exact absurd rfl h
  | cons a ts ih =>
    rcases Bool.eq_false_or_eq_true (p a) with hp | hp
    · exact ⟨[], a, ts, rfl, by rw [findIndexJS_cons_pos hp]; rfl, hp, by simp⟩
    · have hne : findIndexJS p ts ≠ -1 := by
        intro hr
        apply h
        rw [findIndexJS_cons_neg hp, if_pos hr]
      obtain ⟨pre, t, post, hsplit, hidx, hpt, hpre⟩ := ih hne
      have hpos := findIndexJS_nonneg hne
      refine ⟨a :: pre, t, post, by simp [hsplit], ?_, hpt, ?_⟩
      · rw [findIndexJS_cons_neg hp, if_neg hne, List.length_cons]
        omega
      · intro u hu
        rcases List.mem_cons.mp hu with rfl | hu
        · exact hp
        · exact hpre u hu

theorem spliceOne_append (pre : List Task) (t : Task) (post : List Task) :
    spliceOne (pre ++ t :: post) pre.length = pre ++ post := by
  induction pre with
  | nil => rfl
  | cons a pre ih => simpa [spliceOne] using ih

theorem remove_not_found {i : Option Int} {s : Store}
    (h : ∀ t ∈ s.tasks, jsEq i t.id = false) : remove i s = (false, s) := by
  simp [remove, findIndexJS_eq_neg_one.mpr h]

theorem remove_found {i : Option Int} {s : Store}
    (h : findIndexJS (fun t => jsEq i t.id) s.tasks ≠ -1) :
    ∃ pre t post, s.tasks = pre ++ t :: post ∧ jsEq i t.id = true ∧
      (∀ u ∈ pre, jsEq i u.id = false) ∧
      remove i s = (true, ⟨pre ++ post, s.nextId⟩) := by
  obtain ⟨pre, t, post, hsplit, hidx, hpt, hpre⟩ := findIndexJS_spec h
  refine ⟨pre, t, post, hsplit, hpt, hpre, ?_⟩
  simp only [remove, if_neg h]
  have : (findIndexJS (fun t => jsEq i t.id) s.tasks).toNat = pre.length := by
    omega
  rw [this, hsplit, spliceOne_append]

theorem remove_fst_true_iff {i : Option Int} {s : Store} :
    (remove i s).1 = true ↔ ∃ t ∈ s.tasks, jsEq i t.id = true := by
  constructor
  · intro h
    by_cases hidx : findIndexJS (fun t => jsEq i t.id) s.tasks = -1
    · simp [remove, hidx] at h
    · obtain ⟨pre, t, post, hsplit, hpt, _, _⟩ := remove_found hidx
      exact ⟨t, by simp [hsplit], hpt⟩
  · rintro ⟨t, ht, hpt⟩
    have hidx : findIndexJS (fun t => jsEq i t.id) s.tasks ≠ -1 := by
      intro hcon
      have := findIndexJS_eq_neg_one.mp hcon t ht
      simp [this] at hpt
    simp [remove, hidx]

theorem remove_nextId (i : Option Int) (s : Store) :
    (remove i s).2.nextId = s.nextId := by
  simp only [remove]
  split <;> rfl

/-! ### The store invariant and its preservation -/

theorem inv_initial : Inv initialStore :=
  ⟨fun t ht => absurd ht (List.not_mem_nil t), List.nodup_nil⟩

theorem inv_applyOp {s : Store} (op : Op) (h : Inv s) : Inv (applyOp op s) := by
  obtain ⟨hlt, hnd⟩ := h
  cases op with
  | create d =>
    simp only [applyOp, create]
    constructor
    · intro t ht
      rcases List.mem_append.mp ht with ht | ht
      · exact Nat.lt_succ_of_lt (hlt t ht)
      · rw [List.mem_singleton.mp ht]
        exact Nat.lt_succ_self _
    · show ((s.tasks ++ [(⟨s.nextId, d⟩ : Task)]).map Task.id).Nodup
      rw [List.map_append]
      refine List.nodup_append.mpr ⟨hnd, List.nodup_singleton _, ?_⟩
      intro a ha hb
      rw [List.map_singleton, List.mem_singleton] at hb
      subst hb
      obtain ⟨t, ht, hta⟩ := List.mem_map.mp ha
      exact absurd hta (Nat.ne_of_lt (hlt t ht))
  | remove i =>
    by_cases hidx : findIndexJS (fun t => jsEq i t.id) s.tasks = -1
    · have heq : remove i s = (false, s) := by simp [remove, hidx]
      simp only [applyOp, heq]
      exact ⟨hlt, hnd⟩
    · obtain ⟨pre, t, post, hsplit, hpt, hpre, heq⟩ := remove_found hidx
      have hsub : (pre ++ post).Sublist s.tasks := by
        rw [hsplit]
        exact List.Sublist.append_left (List.sublist_cons_self t post) pre
      simp only [applyOp, heq]
      constructor
      · intro u hu
        exact hlt u (hsub.subset hu)
      · exact (hsub.map Task.id).nodup hnd
  | reset => exact inv_initial
  | getAll => exact ⟨hlt, hnd⟩

theorem applyOp_nextId_mono {op : Op} (hop : op ≠ Op.reset) (s : Store) :
    s.nextId ≤ (applyOp op s).nextId := by
  cases op with
  | create d => simp [applyOp, create]
  | remove i => simp [applyOp, remove_nextId]
  | reset => exact absurd rfl hop
  | getAll => exact le_refl _

/-! ### Runs of repository operations -/

theorem run_nextId_mono {ops : List Op} (h : Op.reset ∉ ops) (s : Store) :
    s.nextId ≤ (run s ops).nextId := by
  induction ops generalizing s with
  | nil => exact le_refl _
  | cons op rest ih =>
    have hop : op ≠ Op.reset := fun hcon => h (hcon ▸ List.mem_cons_self op rest)
    have hrest : Op.reset ∉ rest := fun hcon => h (List.mem_cons_of_mem op hcon)
    exact le_trans (applyOp_nextId_mono hop s) (ih hrest (applyOp op s))

theorem createdIds_lb {ops : List Op} (h : Op.reset ∉ ops) (s : Store) :
    ∀ v ∈ createdIds s ops, s.nextId ≤ v := by
  induction ops generalizing s with
  | nil => intro v hv; cases hv
  | cons op rest ih =>
    have hop : op ≠ Op.reset := fun hcon => h (hcon ▸ List.mem_cons_self op rest)
    have hrest : Op.reset ∉ rest := fun hcon => h (List.mem_cons_of_mem op hcon)
    intro v hv
    cases op with
    | create d =>
      simp only [createdIds] at hv
      rcases List.mem_cons.mp hv with rfl | hv
      · exact le_refl _
      · have := ih hrest (create d s).2 v hv
        simp only [create] at this
        omega
    | remove i =>
      simp only [createdIds] at hv
      have := ih hrest (applyOp (.remove i) s) v hv
      have hmono := applyOp_nextId_mono hop s
      omega
    | reset => exact absurd rfl hop
    | getAll =>
      simp only [createdIds] at hv
      exact ih hrest _ v hv

theorem createdIds_pairwise {ops : List Op} (h : Op.reset ∉ ops) (s : Store) :
    List.Pairwise (· < ·) (createdIds s ops) := by
  induction ops generalizing s with
  | nil => exact List.Pairwise.nil
  | cons op rest ih =>
    have hop : op ≠ Op.reset := fun hcon => h (hcon ▸ List.mem_cons_self op rest)
    have hrest : Op.reset ∉ rest := fun hcon => h (List.mem_cons_of_mem op hcon)
    cases op with
    | create d =>
      simp only [createdIds]
      refine List.Pairwise.cons ?_ (ih hrest (create d s).2)
      intro v hv
      have := createdIds_lb hrest (create d s).2 v hv
      simp only [create] at this ⊢
      omega
    | remove i =>
      simp only [createdIds]
      exact ih hrest _
    | reset => exact absurd rfl hop
    | getAll =>
      simp only [createdIds]
      exact ih hrest _

theorem removedIds_lt {ops : List Op} (hnr : Op.reset ∉ ops) {s : Store}
    (hInv : Inv s) : ∀ v ∈ removedIds s ops, v < (run s ops).nextId := by
  induction ops generalizing s with
  | nil => intro v hv; cases hv
  | cons op rest ih =>
    have hop : op ≠ Op.reset := fun hcon => hnr (hcon ▸ List.mem_cons_self op rest)
    have hrest : Op.reset ∉ rest := fun hcon => hnr (List.mem_cons_of_mem op hcon)
    intro v hv
    cases op with
    | remove i =>
      simp only [removedIds] at hv
      rcases List.mem_append.mp hv with hv | hv
      · rcases hfind : s.tasks.find? (fun t => jsEq i t.id) with _ | t
        · rw [hfind] at hv
          cases hv
        · rw [hfind] at hv
          rw [List.mem_singleton.mp hv]
          have hmem := List.mem_of_find?_eq_some hfind
          have h1 : t.id < s.nextId := hInv.1 t hmem
          have h2 := remove_nextId i s
          have h3 := run_nextId_mono hrest (remove i s).2
          simp only [run, applyOp]
          omega
      · have := ih hrest (inv_applyOp (.remove i) hInv) v hv
        simpa only [run] using this
    | create d =>
      simp only [removedIds] at hv
      have := ih hrest (inv_applyOp (.create d) hInv) v hv
      simpa only [run] using this
    | reset => exact absurd rfl hop
    | getAll =>
      simp only [removedIds] at hv
      have := ih hrest (inv_applyOp .getAll hInv) v hv
      simpa only [run] using this

/-! ### Router handler lemmas -/

theorem createHandlerT_invalid {body : CreateBody} {s : Store}
    (h : body.task = none ∨ ∃ t, body.task = some t ∧
      (t.description = none ∨ ∃ d, t.description = some d ∧ d.length < 3)) :
    (createHandlerT body s).1.status = 400 ∧ (createHandlerT body s).2.1 = s := by
  rcases h with h | ⟨t, ht, hd | ⟨d, hd, hlen⟩⟩
  · simp [createHandlerT, h, Resp.status]
  · simp [createHandlerT, ht, hd, Resp.status]
  · by_cases hd0 : d = "" <;>
      simp [createHandlerT, ht, hd, hd0, hlen, Resp.status]

theorem createHandlerT_valid {body : CreateBody} {s : Store} {t : TaskInput}
    {d : String} (ht : body.task = some t) (hd : t.description = some d)
    (hlen : 3 ≤ d.length) :
    createHandlerT body s =
      (.createdR ⟨s.nextId, d⟩, ⟨s.tasks ++ [⟨s.nextId, d⟩], s.nextId + 1⟩,
        [.validEv, .repoEv]) := by
  have hd0 : ¬ d = "" := fun h0 => absurd (h0 ▸ hlen) (by decide)
  have hlen' : ¬ d.length < 3 := by omega
  simp [createHandlerT, ht, hd, hd0, hlen', create]

theorem createHandlerT_created {body : CreateBody} {s : Store} {tk : Task}
    (h : (createHandlerT body s).1 = .createdR tk) :
    ∃ t d, body.task = some t ∧ t.description = some d ∧ 3 ≤ d.length ∧
      tk = ⟨s.nextId, d⟩ := by
  rcases body with ⟨_ | ⟨_ | d⟩⟩
  · simp [createHandlerT] at h
  · simp [createHandlerT] at h
  · by_cases hd0 : d = ""
    · simp [createHandlerT, hd0] at h
    · by_cases hlen : d.length < 3
      · simp [createHandlerT, hd0, hlen] at h
      · refine ⟨⟨some d⟩, d, rfl, rfl, by omega, ?_⟩
        simp [createHandlerT, hd0, hlen, create] at h
        exact h.symm

theorem deleteHandlerT_trace (idStr : String) (s : Store) :
    (deleteHandlerT idStr s).2.2 = [Ev.repoEv] := by
  simp only [deleteHandlerT]
  split <;> rfl

/-! ### Claim theorems -/

/-- C1: in every sequence of repository operations without a `reset`,
starting from a store satisfying the invariant, the ids returned by the
`create` calls are strictly increasing and pairwise distinct, and an id
deleted by a successful `remove` is never returned by a later
`create`. -/
theorem spec_c1 (s : Store) (ops : List Op) (hInv : Inv s)
    (hnr : Op.reset ∉ ops) :
    List.Pairwise (· < ·) (createdIds s ops) ∧ (createdIds s ops).Nodup ∧
    ∀ pre post, ops = pre ++ post →
      ∀ v ∈ removedIds s pre, v ∉ createdIds (run s pre) post := by
  refine ⟨createdIds_pairwise hnr s,
    (createdIds_pairwise hnr s).imp Nat.ne_of_lt, ?_⟩
  rintro pre post rfl v hvrem hvcr
  have hpre : Op.reset ∉ pre := fun hc => hnr (List.mem_append.mpr (Or.inl hc))
  have hpost : Op.reset ∉ post := fun hc => hnr (List.mem_append.mpr (Or.inr hc))
  have h1 := removedIds_lt hpre hInv v hvrem
  have h2 := createdIds_lb hpost (run s pre) v hvcr
  omega

/-- Witness for C1 at a concrete run: create, remove the created task,
create again. -/
theorem spec_c1_witness :
    List.Pairwise (· < ·)
      (createdIds initialStore
        [Op.create "ab", Op.remove (some 1), Op.create "cd"]) ∧
    (createdIds initialStore
      [Op.create "ab", Op.remove (some 1), Op.create "cd"]).Nodup ∧
    ∀ pre post,
      [Op.create "ab", Op.remove (some 1), Op.create "cd"] = pre ++ post →
      ∀ v ∈ removedIds initialStore pre,
        v ∉ createdIds (run initialStore pre) post :=
  spec_c1 initialStore [Op.create "ab", Op.remove (some 1), Op.create "cd"]
    (by decide) (by decide)

/-- C5: on a store satisfying the invariant, `remove` of a present id
returns `true`, shrinks the store by exactly one task and erases that
id from `getAll`; `remove` of an absent id returns `false` and leaves
the store — contents, order and counter — untouched. -/
theorem spec_c5 (s : Store) (v : Int) (hInv : Inv s) :
    ((∃ t ∈ s.tasks, (t.id : Int) = v) →
      (remove (some v) s).1 = true ∧
      s.tasks.length = ((remove (some v) s).2.tasks).length + 1 ∧
      ∀ t ∈ getAll (remove (some v) s).2, (t.id : Int) ≠ v) ∧
    ((∀ t ∈ s.tasks, (t.id : Int) ≠ v) →
      remove (some v) s = (false, s)) := by
  constructor
  · rintro ⟨t, ht, htv⟩
    have hidx : findIndexJS (fun u => jsEq (some v) u.id) s.tasks ≠ -1 := by
      intro hcon
      have := findIndexJS_eq_neg_one.mp hcon t ht
      simp [jsEq, htv] at this
    obtain ⟨pre, u, post, hsplit, hpu, hpre, heq⟩ := remove_found hidx
    simp only [jsEq, beq_iff_eq] at hpu
    refine ⟨by rw [heq], ?_, ?_⟩
    · rw [heq, hsplit]
      simp [List.length_append]
      omega
    · intro t' ht' htv'
      rw [heq] at ht'
      have hid : t'.id = u.id := by
        have : ((t'.id : Int)) = ((u.id : Int)) := by rw [htv', hpu]
        exact Int.natCast_inj.mp this
      have hnd := hInv.2
      rw [hsplit, List.map_append, List.map_cons] at hnd
      have ht'' : t' ∈ pre ++ post := ht'
      rcases List.mem_append.mp ht'' with hmem | hmem
      · have hin : t'.id ∈ pre.map Task.id := List.mem_map_of_mem _ hmem
        have hdisj := (List.nodup_append.mp hnd).2.2
        exact hdisj hin (by rw [hid]; exact List.mem_cons_self _ _)
      · have hin : t'.id ∈ post.map Task.id := List.mem_map_of_mem _ hmem
        have hcons := (List.nodup_append.mp hnd).2.1
        rw [List.nodup_cons] at hcons
        have hin' : u.id ∈ post.map Task.id := by rw [← hid]; exact hin
        exact hcons.1 hin'
  · intro h
    apply remove_not_found
    intro t ht
    simp only [jsEq, beq_eq_false_iff_ne]
    exact fun hc => h t ht hc.symm

/-- Witness for C5 at a concrete store holding the single task id 1. -/
theorem spec_c5_witness :
    ((∃ t ∈ (create "ab" initialStore).2.tasks, (t.id : Int) = 1) →
      (remove (some 1) (create "ab" initialStore).2).1 = true ∧
      (create "ab" initialStore).2.tasks.length =
        ((remove (some 1) (create "ab" initialStore).2).2.tasks).length + 1 ∧
      ∀ t ∈ getAll (remove (some 1) (create "ab" initialStore).2).2,
        (t.id : Int) ≠ 1) ∧
    ((∀ t ∈ (create "ab" initialStore).2.tasks, (t.id : Int) ≠ 1) →
      remove (some 1) (create "ab" initialStore).2 =
        (false, (create "ab" initialStore).2)) :=
  spec_c5 (create "ab" initialStore).2 1 (by decide)

/-- C6: `reset` empties the store and restarts the counter at 1, so the
next `create` hands out id 1 again; every operation other than `reset`
keeps the counter from decreasing, so only `reset` can make an already
assigned id assignable again. -/
theorem spec_c6 (s : Store) (d : String) (op : Op) (hop : op ≠ Op.reset) :
    getAll (reset s) = [] ∧ (reset s).nextId = 1 ∧
    (create d (reset s)).1.id = 1 ∧ s.nextId ≤ (applyOp op s).nextId :=
  ⟨rfl, rfl, rfl, applyOp_nextId_mono hop s⟩

/-- Witness for C6 at a concrete store and operation. -/
theorem spec_c6_witness :
    getAll (reset (create "ab" initialStore).2) = [] ∧
    (reset (create "ab" initialStore).2).nextId = 1 ∧
    (create "cd" (reset (create "ab" initialStore).2)).1.id = 1 ∧
    (create "ab" initialStore).2.nextId ≤
      (applyOp (Op.create "cd") (create "ab" initialStore).2).nextId :=
  spec_c6 (create "ab" initialStore).2 "cd" (Op.create "cd") (by decide)

/-- C7 counterexample: `create "ab"` twice from the empty store; after
the second `create "ab"`, `getAll` holds two tasks whose description
equals `"ab"`, not exactly one. -/
theorem spec_c7_counterexample :
    ¬ ((getAll (create "ab" (create "ab" initialStore).2).2).countP
        (fun t => t.description == "ab") = 1) := by decide

/-- C7 amended: `create d` followed by `getAll` yields exactly one more
task with description `d` than before the call; in particular, when no
task of the prior store has description `d`, exactly one task of the
result does. -/
theorem spec_c7_amended (s : Store) (d : String) :
    (getAll (create d s).2).countP (fun t => t.description == d) =
      (getAll s).countP (fun t => t.description == d) + 1 ∧
    ((∀ t ∈ s.tasks, t.description ≠ d) →
      (getAll (create d s).2).countP (fun t => t.description == d) = 1) := by
  have hstep : (getAll (create d s).2).countP (fun t => t.description == d) =
      (getAll s).countP (fun t => t.description == d) + 1 := by
    simp [getAll, create, List.countP_append, List.countP_cons]
  refine ⟨hstep, fun h => ?_⟩
  have hzero : (getAll s).countP (fun t => t.description == d) = 0 := by
    rw [List.countP_eq_zero]
    intro t ht
    simp [h t ht]
  rw [hstep, hzero]

/-- Witness for C7-amended from the empty store. -/
theorem spec_c7_amended_witness :
    (getAll (create "ab" initialStore).2).countP
        (fun t => t.description == "ab") =
      (getAll initialStore).countP (fun t => t.description == "ab") + 1 ∧
    ((∀ t ∈ initialStore.tasks, t.description ≠ "ab") →
      (getAll (create "ab" initialStore).2).countP
        (fun t => t.description == "ab") = 1) :=
  spec_c7_amended initialStore "ab"

/-- C8: at reference level, `getAll` hands back a fresh array — a
reference distinct from the store's own — holding the same tasks in the
same order, it leaves the store's array and the whole repository state
untouched, and overwriting the returned copy does not affect the
store's array. -/
theorem spec_c8 (h : Heap) (st : RefStore) (href : st.tasksRef < h.hi) :
    (getAllRef h st).1 ≠ st.tasksRef ∧
    ((getAllRef h st).2.1).arr (getAllRef h st).1 = h.arr st.tasksRef ∧
    ((getAllRef h st).2.1).arr st.tasksRef = h.arr st.tasksRef ∧
    (getAllRef h st).2.2 = st ∧
    (∀ l, (writeArr (getAllRef h st).2.1 (getAllRef h st).1 l).arr st.tasksRef =
      h.arr st.tasksRef) ∧
    getAll ⟨h.arr st.tasksRef, st.nextId⟩ = h.arr st.tasksRef := by
  have hne : st.tasksRef ≠ h.hi := Nat.ne_of_lt href
  refine ⟨fun hc => hne hc.symm, ?_, ?_, rfl, ?_, rfl⟩
  · simp [getAllRef]
  · simp [getAllRef, hne]
  · intro l
    simp [getAllRef, writeArr, hne]

/-- Witness for C8 at a one-reference heap. -/
theorem spec_c8_witness :
    (getAllRef ⟨fun _ => [], 1⟩ ⟨0, 1⟩).1 ≠ (⟨0, 1⟩ : RefStore).tasksRef ∧
    ((getAllRef ⟨fun _ => [], 1⟩ ⟨0, 1⟩).2.1).arr
        (getAllRef ⟨fun _ => [], 1⟩ ⟨0, 1⟩).1 =
      (⟨fun _ => [], 1⟩ : Heap).arr (⟨0, 1⟩ : RefStore).tasksRef ∧
    ((getAllRef ⟨fun _ => [], 1⟩ ⟨0, 1⟩).2.1).arr
        (⟨0, 1⟩ : RefStore).tasksRef =
      (⟨fun _ => [], 1⟩ : Heap).arr (⟨0, 1⟩ : RefStore).tasksRef ∧
    (getAllRef ⟨fun _ => [], 1⟩ ⟨0, 1⟩).2.2 = (⟨0, 1⟩ : RefStore) ∧
    (∀ l, (writeArr (getAllRef ⟨fun _ => [], 1⟩ ⟨0, 1⟩).2.1
        (getAllRef ⟨fun _ => [], 1⟩ ⟨0, 1⟩).1 l).arr
          (⟨0, 1⟩ : RefStore).tasksRef =
      (⟨fun _ => [], 1⟩ : Heap).arr (⟨0, 1⟩ : RefStore).tasksRef) ∧
    getAll ⟨(⟨fun _ => [], 1⟩ : Heap).arr (⟨0, 1⟩ : RefStore).tasksRef,
        (⟨0, 1⟩ : RefStore).nextId⟩ =
      (⟨fun _ => [], 1⟩ : Heap).arr (⟨0, 1⟩ : RefStore).tasksRef :=
  spec_c8 ⟨fun _ => [], 1⟩ ⟨0, 1⟩ (by decide)

/-- C9: the initial store satisfies the id invariant — every stored id
is below the counter and the stored ids are pairwise distinct — and
every repository operation preserves it. -/
theorem spec_c9 (s : Store) (op : Op) (h : Inv s) :
    Inv initialStore ∧ Inv (applyOp op s) :=
  ⟨inv_initial, inv_applyOp op h⟩

/-- Witness for C9 at the initial store and a `create`. -/
theorem spec_c9_witness :
    Inv initialStore ∧ Inv (applyOp (Op.create "ab") initialStore) :=
  spec_c9 initialStore (Op.create "ab") (by decide)

/-- C10: `remove` keeps the remaining tasks a sublist of the original
sequence (relative order preserved), deletes at most one element, and
on success deletes exactly the first task whose id matches. -/
theorem spec_c10 (i : Option Int) (s : Store) :
    ((remove i s).2.tasks).Sublist s.tasks ∧
    s.tasks.length ≤ ((remove i s).2.tasks).length + 1 ∧
    ((remove i s).1 = true →
      ∃ pre t post, s.tasks = pre ++ t :: post ∧ jsEq i t.id = true ∧
        (∀ u ∈ pre, jsEq i u.id = false) ∧
        (remove i s).2.tasks = pre ++ post) := by
  by_cases hidx : findIndexJS (fun t => jsEq i t.id) s.tasks = -1
  · have heq : remove i s = (false, s) := by simp [remove, hidx]
    rw [heq]
    exact ⟨List.Sublist.refl _, Nat.le_succ _, fun hcon => Bool.noConfusion hcon⟩
  · obtain ⟨pre, t, post, hsplit, hpt, hpre, heq⟩ := remove_found hidx
    rw [heq]
    refine ⟨?_, ?_, fun _ => ⟨pre, t, post, hsplit, hpt, hpre, rfl⟩⟩
    · rw [hsplit]
      exact List.Sublist.append_left (List.sublist_cons_self t post) pre
    · rw [hsplit]
      simp only [List.length_append, List.length_cons]
      omega

/-- C2: on an authenticated `POST /create`, a missing `task`, a missing
`description`, or a description shorter than 3 characters yields a 400
and leaves the store untouched; a description of length at least 3
yields a 201 carrying the created task with its assigned id; and a 201
arises only from a description of length at least 3. -/
theorem spec_c2 (verify : String → Bool) (hdr : Option String)
    (body : CreateBody) (s : Store) (hAuth : auth verify hdr = none) :
    ((body.task = none ∨ ∃ t, body.task = some t ∧
        (t.description = none ∨ ∃ d, t.description = some d ∧ d.length < 3)) →
      (postCreateRoute verify hdr body s).1.status = 400 ∧
      (postCreateRoute verify hdr body s).2.1 = s) ∧
    (∀ t d, body.task = some t → t.description = some d → 3 ≤ d.length →
      (postCreateRoute verify hdr body s).1 = .createdR ⟨s.nextId, d⟩ ∧
      (postCreateRoute verify hdr body s).2.1 =
        ⟨s.tasks ++ [⟨s.nextId, d⟩], s.nextId + 1⟩) ∧
    (∀ tk, (postCreateRoute verify hdr body s).1 = .createdR tk →
      ∃ t d, body.task = some t ∧ t.description = some d ∧ 3 ≤ d.length ∧
        tk = ⟨s.nextId, d⟩) := by
  have hroute : postCreateRoute verify hdr body s =
      ((createHandlerT body s).1, (createHandlerT body s).2.1,
        Ev.authEv :: (createHandlerT body s).2.2) := by
    simp [postCreateRoute, routeWithAuth, hAuth]
  rw [hroute]
  refine ⟨fun h => createHandlerT_invalid h, fun t d ht hd hlen => ?_,
    fun tk h => createHandlerT_created h⟩
  rw [createHandlerT_valid ht hd hlen]
  exact ⟨rfl, rfl⟩

/-- Witness for C2: a valid token and the body `{task:{description:"Test task"}}`. -/
theorem spec_c2_witness :
    (((⟨some ⟨some "Test task"⟩⟩ : CreateBody).task = none ∨
      ∃ t, (⟨some ⟨some "Test task"⟩⟩ : CreateBody).task = some t ∧
        (t.description = none ∨
          ∃ d, t.description = some d ∧ d.length < 3)) →
      (postCreateRoute (fun _ => true) (some "tok")
        ⟨some ⟨some "Test task"⟩⟩ initialStore).1.status = 400 ∧
      (postCreateRoute (fun _ => true) (some "tok")
        ⟨some ⟨some "Test task"⟩⟩ initialStore).2.1 = initialStore) ∧
    (∀ t d, (⟨some ⟨some "Test task"⟩⟩ : CreateBody).task = some t →
      t.description = some d → 3 ≤ d.length →
      (postCreateRoute (fun _ => true) (some "tok")
        ⟨some ⟨some "Test task"⟩⟩ initialStore).1 =
          .createdR ⟨initialStore.nextId, d⟩ ∧
      (postCreateRoute (fun _ => true) (some "tok")
        ⟨some ⟨some "Test task"⟩⟩ initialStore).2.1 =
          ⟨initialStore.tasks ++ [⟨initialStore.nextId, d⟩],
            initialStore.nextId + 1⟩) ∧
    (∀ tk, (postCreateRoute (fun _ => true) (some "tok")
        ⟨some ⟨some "Test task"⟩⟩ initialStore).1 = .createdR tk →
      ∃ t d, (⟨some ⟨some "Test task"⟩⟩ : CreateBody).task = some t ∧
        t.description = some d ∧ 3 ≤ d.length ∧
        tk = ⟨initialStore.nextId, d⟩) :=
  spec_c2 (fun _ => true) (some "tok") ⟨some ⟨some "Test task"⟩⟩ initialStore
    (by decide)

/-- C3: on an authenticated `DELETE /:id` whose path parameter does not
parse to a number (`parseInt` yields `NaN`), the route answers 404 with
the not-found error body and the store is unchanged; the handler is a
total function, so no crash occurs. -/
theorem spec_c3 (verify : String → Bool) (hdr : Option String) (idStr : String)
    (s : Store) (hAuth : auth verify hdr = none)
    (hBad : parseIntJS idStr = none) :
    deleteRoute verify hdr idStr s =
      (.notFound "Task not found", s, [Ev.authEv, Ev.repoEv]) := by
  have hrem : remove (parseIntJS idStr) s = (false, s) := by
    rw [hBad]
    exact remove_not_found fun t ht => rfl
  simp [deleteRoute, routeWithAuth, hAuth, deleteHandlerT, hrem]

/-- Witness for C3: valid token, non-numeric id `"abc"`, a one-task store. -/
theorem spec_c3_witness :
    deleteRoute (fun _ => true) (some "tok") "abc"
        (create "ab" initialStore).2 =
      (.notFound "Task not found", (create "ab" initialStore).2,
        [Ev.authEv, Ev.repoEv]) :=
  spec_c3 (fun _ => true) (some "tok") "abc" (create "ab" initialStore).2
    (by decide) (by decide)

/-- C4: on both authenticated routes the recorded stages always respect
the order authentication–validation–repository (the trace is a sublist
of that canonical order and starts with the authentication check), and
a request failing authentication produces the 401 with the store
unchanged and neither validation nor a repository call in its trace. -/
theorem spec_c4 (verify : String → Bool) (hdr : Option String)
    (body : CreateBody) (idStr : String) (s : Store) :
    ((postCreateRoute verify hdr body s).2.2).Sublist
      [Ev.authEv, Ev.validEv, Ev.repoEv] ∧
    ((postCreateRoute verify hdr body s).2.2).head? = some Ev.authEv ∧
    ((deleteRoute verify hdr idStr s).2.2).Sublist [Ev.authEv, Ev.repoEv] ∧
    ((deleteRoute verify hdr idStr s).2.2).head? = some Ev.authEv ∧
    ∀ m, auth verify hdr = some m →
      postCreateRoute verify hdr body s = (.unauthorized m, s, [Ev.authEv]) ∧
      deleteRoute verify hdr idStr s = (.unauthorized m, s, [Ev.authEv]) := by
  have htrace : (createHandlerT body s).2.2 = [Ev.validEv] ∨
      (createHandlerT body s).2.2 = [Ev.validEv, Ev.repoEv] := by
    rcases body with ⟨_ | ⟨_ | d⟩⟩
    · exact Or.inl rfl
    · exact Or.inl rfl
    · by_cases hd0 : d = ""
      · exact Or.inl (by simp [createHandlerT, hd0])
      · by_cases hlen : d.length < 3
        · exact Or.inl (by simp [createHandlerT, hd0, hlen])
        · exact Or.inr (by simp [createHandlerT, hd0, hlen])
  rcases hA : auth verify hdr with _ | m
  · have hpc : (postCreateRoute verify hdr body s).2.2 =
        Ev.authEv :: (createHandlerT body s).2.2 := by
      simp [postCreateRoute, routeWithAuth, hA]
    have hdl : (deleteRoute verify hdr idStr s).2.2 =
        Ev.authEv :: (deleteHandlerT idStr s).2.2 := by
      simp [deleteRoute, routeWithAuth, hA]
    refine ⟨?_, ?_, ?_, ?_, fun m hm => Option.noConfusion hm⟩
    · rw [hpc]
      rcases htrace with h | h
      · rw [h]
        decide
      · rw [h]
    · rw [hpc]
      rfl
    · rw [hdl, deleteHandlerT_trace]
    · rw [hdl]
      rfl
  · have hpc : postCreateRoute verify hdr body s =
        (.unauthorized m, s, [Ev.authEv]) := by
      simp [postCreateRoute, routeWithAuth, hA]
    have hdl : deleteRoute verify hdr idStr s =
        (.unauthorized m, s, [Ev.authEv]) := by
      simp [deleteRoute, routeWithAuth, hA]
    rw [hpc, hdl]
    refine ⟨List.cons_sublist_cons.mpr (List.nil_sublist _), rfl,
      List.cons_sublist_cons.mpr (List.nil_sublist _), rfl, fun m' hm' => ?_⟩
    cases hm'
    exact ⟨rfl, rfl⟩

/-- Witness for C4 at concrete requests (one authenticated, by the
theorem's generality also covering the rejected case via `m`). -/
theorem spec_c4_witness :
    ((postCreateRoute (fun _ => true) none ⟨some ⟨some "Test task"⟩⟩
        initialStore).2.2).Sublist [Ev.authEv, Ev.validEv, Ev.repoEv] ∧
    ((postCreateRoute (fun _ => true) none ⟨some ⟨some "Test task"⟩⟩
        initialStore).2.2).head? = some Ev.authEv ∧
    ((deleteRoute (fun _ => true) none "1" initialStore).2.2).Sublist
      [Ev.authEv, Ev.repoEv] ∧
    ((deleteRoute (fun _ => true) none "1" initialStore).2.2).head? =
      some Ev.authEv ∧
    ∀ m, auth (fun _ => true) none = some m →
      postCreateRoute (fun _ => true) none ⟨some ⟨some "Test task"⟩⟩
        initialStore = (.unauthorized m, initialStore, [Ev.authEv]) ∧
      deleteRoute (fun _ => true) none "1" initialStore =
        (.unauthorized m, initialStore, [Ev.authEv]) :=
  spec_c4 (fun _ => true) none ⟨some ⟨some "Test task"⟩⟩ "1" initialStore

/-- Witness for C10 at a concrete two-task store. -/
theorem spec_c10_witness :
    ((remove (some 1) (create "cd" (create "ab" initialStore).2).2).2.tasks).Sublist
      (create "cd" (create "ab" initialStore).2).2.tasks ∧
    (create "cd" (create "ab" initialStore).2).2.tasks.length ≤
      ((remove (some 1)
        (create "cd" (create "ab" initialStore).2).2).2.tasks).length + 1 ∧
    ((remove (some 1) (create "cd" (create "ab" initialStore).2).2).1 = true →
      ∃ pre t post,
        (create "cd" (create "ab" initialStore).2).2.tasks =
          pre ++ t :: post ∧
        jsEq (some 1) t.id = true ∧ (∀ u ∈ pre, jsEq (some 1) u.id = false) ∧
        (remove (some 1)
          (create "cd" (create "ab" initialStore).2).2).2.tasks =
            pre ++ post) :=
  spec_c10 (some 1) (create "cd" (create "ab" initialStore).2).2

end Todo
